import Mathlib

set_option maxHeartbeats 1000000

namespace DockerBackup

/-! Shallow embedding of the docker-backup repository.

The definitions below are translated from the TypeScript sources:
  src/lib/storage.ts            (history store)
  src/lib/scheduler.ts          (job status values, single-concurrency queue)
  src/unnamed/part_000          (compose stack parser)
  src/unnamed/part_005          (backup/restore engine and orchestrator)
JavaScript strings are modelled as `String` or as `List Char`; machine
integers do not occur in the modelled fragments (ports and sizes are
non-negative and far below 2^53, so `Nat` is exact). -/

/-! ### JavaScript string primitives -/

/-- JS `String.prototype.includes` helper on char lists: `containsSub pat s`
is true iff `pat` occurs contiguously somewhere in `s`. -/
def containsSub (pat : List Char) : List Char → Bool
  | [] => pat.isPrefixOf []
  | c :: rest => pat.isPrefixOf (c :: rest) || containsSub pat rest

/-- JS `s.includes(pat)`. -/
def strContains (s pat : String) : Bool := containsSub pat.data s.data

/-- JS `String.prototype.split` with a single-character separator:
`"a=b=".split('=') = ["a","b",""]`. -/
def jsSplit (sep : Char) : List Char → List (List Char)
  | [] => [[]]
  | c :: rest =>
    if c = sep then [] :: jsSplit sep rest
    else (c :: (jsSplit sep rest).headD []) :: (jsSplit sep rest).tail

/-- JS `String.prototype.replace` with a plain (non-regex, non-empty in all
uses below) string pattern: replaces the FIRST occurrence of `pat` by `rep`,
or returns the input unchanged when `pat` does not occur. -/
def replaceFirst (pat rep : List Char) : List Char → List Char
  | [] => if pat.isPrefixOf [] then rep else []
  | c :: rest =>
    if pat.isPrefixOf (c :: rest) then rep ++ (c :: rest).drop pat.length
    else c :: replaceFirst pat rep rest

/-- JS `String.prototype.trim` (modelled with the core whitespace set). -/
def jsTrim (s : String) : String :=
  ⟨((s.data.dropWhile Char.isWhitespace).reverse.dropWhile Char.isWhitespace).reverse⟩

/-! ### Job, history and destination enumerations
From src/lib/scheduler.ts line 46 and src/lib/storage.ts lines 43-52. -/

inductive JobStatus
  | pending
  | processing
  | uploading
  | completed
  | failed
deriving DecidableEq, Repr

inductive HistStatus
  | success
  | failed
deriving DecidableEq, Repr

inductive Destination
  | local
  | telegram
  | cloud
deriving DecidableEq, Repr

/-! ### History store (claim C9)
From src/lib/storage.ts, `addHistoryEntry`, lines 87-93:
the entry is `unshift`ed to the front (newest first) and when the length
exceeds 200 the LAST element (the oldest) is `pop`ped. -/

def addHistoryEntry {α : Type} (entry : α) (history : List α) : List α :=
  if 200 < (entry :: history).length then (entry :: history).dropLast
  else entry :: history

/-! ### Upload handling (claim C10)
From src/unnamed/part_005, `handleUpload`, lines 466-528. The outcome record
collects the terminal job status and message, the appended history entry
fields, and whether the local artifact file was deleted (`fs.unlinkSync` is
reached only on HTTP success, line 491). -/

structure UploadOutcome where
  jobStatus : JobStatus
  jobMessage : String
  histStatus : HistStatus
  histDestination : Destination
  histMessage : String
  fileDeleted : Bool
deriving DecidableEq, Repr

/-- `handleUpload` with the Telegram transport abstracted as an
`Except String Unit` (error = the thrown upload error message).
`telegramConfigured` is `TELEGRAM_TOKEN && CHAT_ID` (line 473). -/
def handleUpload (telegramConfigured : Bool) (uploadResult : Except String Unit) :
    UploadOutcome :=
  if telegramConfigured then
    match uploadResult with
    | .ok _ =>
        ⟨.completed, "Sent to Telegram & Cleaned", .success, .telegram,
         "Backup sent to Telegram", true⟩
    | .error e =>
        ⟨.completed, "Saved Local (Telegram Failed)", .failed, .local,
         "Telegram upload failed: " ++ e, false⟩
  else
    ⟨.completed, "Saved to local disk", .success, .local, "Saved to local disk", false⟩

/-! ### Compose environment parsing (claim C8)
From src/unnamed/part_000, `parseStackYaml`, lines 43-47:
`const [k, v] = e.split('='); if (k) env[k] = v || '';`
The destructuring keeps only the first two segments of the split. -/

/-- JS object assignment `env[k] = v` on an association list. -/
def setEnv (env : List (String × String)) (k v : String) : List (String × String) :=
  if env.any (fun p => p.1 = k) then
    env.map (fun p => if p.1 = k then (k, v) else p)
  else env ++ [(k, v)]

/-- One array-form environment entry, exactly as the parser handles it. -/
def parseEnvArrayEntry (env : List (String × String)) (e : String) :
    List (String × String) :=
  let parts := jsSplit '=' e.data
  let k : List Char := parts.headD []
  let v : List Char := (parts.drop 1).headD []
  if k = [] then env else setEnv env ⟨k⟩ ⟨v⟩

/-- The whole array-form environment extraction (`forEach` over the array). -/
def parseEnvArray (entries : List String) : List (String × String) :=
  entries.foldl parseEnvArrayEntry []

/-! ### Port conflict probing (claim C5)
From src/unnamed/part_005, `findAvailablePort`, lines 1138-1144:
`let port = startPort; while (!(await isPortAvailable(port)) && port < 65535) { port++; } return port;`
`isPortAvailable` (lines 1106-1135) performs a host TCP bind plus an engine
published-port scan; it is abstracted here as an oracle `avail : Nat → Bool`.
The while loop strictly increases `port` and stops at 65535 at the latest,
so it is embedded as structural recursion on a fuel argument that is always
sufficient (65536 iterations cover every possible start value). -/

def findPortLoop (avail : Nat → Bool) : Nat → Nat → Nat
  | 0, port => port
  | fuel + 1, port =>
    if avail port then port
    else if port < 65535 then findPortLoop avail fuel (port + 1)
    else port

def findAvailablePort (avail : Nat → Bool) (startPort : Nat) : Nat :=
  findPortLoop avail 65536 startPort

/-- The ports on which the loop evaluates `isPortAvailable` (one call per
while-condition evaluation), in order. -/
def probedPortsLoop (avail : Nat → Bool) : Nat → Nat → List Nat
  | 0, _ => []
  | fuel + 1, port =>
    port :: (if avail port then []
             else if port < 65535 then probedPortsLoop avail fuel (port + 1) else [])

def probedPorts (avail : Nat → Bool) (startPort : Nat) : List Nat :=
  probedPortsLoop avail 65536 startPort

def availOnly8090 : Nat → Bool := fun p => p == 8090

def availNever : Nat → Bool := fun _ => false

/-! ### Database dump capture (claim C7)
From src/unnamed/part_005, `archiveContainerInternal`, lines 325-382.
The exec output is demuxed on line 343:
`container.modem.demuxStream(stream, fileStream, process.stderr)` — stdout
goes to the temp dump file, stderr goes to the SERVER PROCESS stderr and is
never captured. On a zero-size dump file the inner promise rejects with
`new Error("Empty SQL Dump")` (lines 354-358). That rejection, however,
propagates out of `archiveContainerInternal` into the async executor
function of `new Promise(async (resolve, reject) => ...)` in
`generateBackupFile` (lines 451-460) and `triggerUnifiedStackBackup`
(lines 132-187): a throw after an `await` there rejects only the executor's
own discarded promise (an unhandled rejection), never the outer backup
promise, whose `reject` is wired only to the stage timeout and to archive
stream errors. Since `archive.finalize()` is then never reached, the output
stream never closes and the outer promise settles only through the timeout:
`reject(new Error("Backup timed out"))` after 400 s (line 452) for a single
container, `reject(new Error("Unified Backup timeout"))` after 600 s
(line 133) for a stack job — assuming the server process survives the
unhandled rejection at all (Node may instead terminate on it; on no path
does "Empty SQL Dump" reach `updateJobStatus` or `addHistoryEntry`).
`processBackup`'s catch (lines 233-243) then records the timeout message in
the failed job status and the failed history entry; the stack job's catch
(lines 194-197) records it in the job status only. -/

inductive StreamSink
  | archiveFile
  | processStderr
deriving DecidableEq, Repr

/-- Destination of the demuxed stderr stream (line 343). -/
def dumpStderrSink : StreamSink := .processStderr

/-- Which promise the zero-byte rejection settles. -/
inductive RejectionTarget
  | orphanedExecutorPromise
  | outerBackupPromise
deriving DecidableEq, Repr

/-- The "Empty SQL Dump" throw lands in the async executor whose promise
nobody observes (lines 451-460 and 132-187); the outer backup promise is
never rejected by it. -/
def emptyDumpRejectionTarget : RejectionTarget := .orphanedExecutorPromise

/-- Zero-byte check on the captured dump file (lines 354-358): the value of
the inner, orphaned rejection. -/
def dumpSizeCheck (sizeBytes : Nat) : Except String Unit :=
  if sizeBytes = 0 then .error "Empty SQL Dump" else .ok ()

/-- Message of the single-container stage timeout (line 452), the rejection
that actually surfaces when the dump stage stalls. -/
def singleBackupTimeoutMessage : String := "Backup timed out"

/-- Message of the unified-stack stage timeout (line 133). -/
def stackBackupTimeoutMessage : String := "Unified Backup timeout"

/-- Job status, job message, history status and history message that a
single-container backup job surfaces when the dump capture produces
`sizeBytes` bytes; `none` when the size check passes and the backup
continues. On a zero-byte dump the inner "Empty SQL Dump" rejection is
orphaned, so what reaches `processBackup`'s catch — and hence the job and
history messages — is the 400 s stage timeout. The stderr text is an input
only to exhibit that the outcome does not depend on it. -/
def dbDumpJobFailure (sizeBytes : Nat) (_stderrText : String) :
    Option (JobStatus × String × HistStatus × String) :=
  match dumpSizeCheck sizeBytes with
  | .error _ =>
      some (.failed, singleBackupTimeoutMessage, .failed, singleBackupTimeoutMessage)
  | .ok _ => none

/-- The same surfaced outcome for the unified-stack backup job (catch at
lines 194-197: job status only, no history entry), via the 600 s timeout. -/
def stackDumpJobFailure (sizeBytes : Nat) (_stderrText : String) :
    Option (JobStatus × String) :=
  match dumpSizeCheck sizeBytes with
  | .error _ => some (.failed, stackBackupTimeoutMessage)
  | .ok _ => none

/-! ### Per-container archive entry sequence (claims C1, C3)
From src/unnamed/part_005, `archiveContainerInternal` (lines 289-439) and
`triggerUnifiedStackBackup` (lines 98-199). The entry-name sequence, in
append order, is a pure function of the image reference (which selects the
dump branch), the prefix, the captured path list, and, per path, whether the
engine tar stream succeeded. -/

/-- Branch selection of line 298: the image reference matched directly. -/
def isDbImage (image : String) : Bool :=
  strContains image "postgres" || strContains image "timescale" ||
  strContains image "mysql" || strContains image "mariadb"

/-- Node `path.join` restricted to the shapes used here (empty or non-empty
prefix joined with a relative name). -/
def joinPath (pre nm : String) : String :=
  if pre = "" then nm else pre ++ "/" ++ nm

/-- `volPath.replace(/[\/\\]/g, '_')` — every slash or backslash becomes an
underscore (lines 426 and 433). -/
def escapeChar (c : Char) : Char := if c = '/' ∨ c = '\\' then '_' else c

/-- `.replace(/^_/, '')` — one leading underscore is stripped (line 426). -/
def stripLeadUnd : List Char → List Char
  | '_' :: rest => rest
  | l => l

/-- The `safeName` of line 426. -/
def safeVolName (p : String) : String :=
  ⟨stripLeadUnd (p.data.map escapeChar)⟩ ++ ".tar"

/-- The per-path failure entry name of line 433 (no leading strip). -/
def errorEntryName (p : String) : String :=
  "ERROR_" ++ ⟨p.data.map escapeChar⟩ ++ ".txt"

/-- Entries appended by the volume section (lines 420-438): one tar entry
under `volumes/` per captured path (or an ERROR text entry when the engine
tar stream fails), or a single `volumes_none.txt` when no path was
captured. -/
def volumeSectionEntries (pre : String) (paths : List String)
    (tarOk : String → Bool) : List String :=
  if paths = [] then [joinPath pre "volumes_none.txt"]
  else paths.map fun p =>
    if tarOk p then joinPath pre ("volumes/" ++ safeVolName p)
    else joinPath pre (errorEntryName p)

/-- Names of all entries appended by `archiveContainerInternal`, in append
order: the dump branch (lines 297-382) appends `dump.sql` FIRST when the
image matches a database engine; `config.json` is appended only afterwards
(line 418), followed by the volume section. -/
def archiveContainerEntries (image pre : String) (paths : List String)
    (tarOk : String → Bool) : List String :=
  (if isDbImage image then [joinPath pre "dump.sql"] else [])
  ++ joinPath pre "config.json" :: volumeSectionEntries pre paths tarOk

/-- JS `Set.add` on an insertion-ordered list (lines 385-403). -/
def addToPathSet (seen : List String) (x : String) : List String :=
  if x ∈ seen then seen else seen ++ [x]

/-- Captured path set (lines 385-403): stack-declared volume destinations,
then custom paths, trimmed, with empty entries dropped, deduplicated keeping
the first occurrence. -/
def buildBackupPaths (stackVols customPaths : List String) : List String :=
  let s1 := stackVols.foldl
    (fun acc v => if v ≠ "" ∧ jsTrim v ≠ "" then addToPathSet acc (jsTrim v) else acc)
    []
  customPaths.foldl
    (fun acc p => if jsTrim p ≠ "" then addToPathSet acc (jsTrim p) else acc) s1

/-- Entry names of a unified stack archive, in append order
(`triggerUnifiedStackBackup` lines 141-186): root metadata first, then the
manifest when stored, then the .env content when configured, then each
service subtree under `services/<containerName>`. -/
def stackBackupEntries (hasYaml hasEnv : Bool)
    (svcs : List (String × String × List String)) (tarOk : String → Bool) :
    List String :=
  "stack_metadata.json" ::
    ((if hasYaml then ["docker-compose.yml"] else []) ++
     (if hasEnv then [".env"] else []) ++
     svcs.foldr (fun svc acc =>
       archiveContainerEntries svc.2.1 ("services/" ++ svc.1) svc.2.2 tarOk ++ acc)
       [])

/-! ### Job queue and direct job paths (claim C2)
The single-concurrency queue lives in src/lib/scheduler.ts lines 57-61
(`new PQueue({ concurrency: 1 })`); `updateJobStatus` (lines 63-69)
overwrites one slot of the global status map. Single-container backups are
enqueued (`triggerBackup`, part_005 lines 206-218) and run by the single
worker (`processBackup`, lines 221-245: `processing` at start, a terminal
status at the end, possibly passing through `uploading`). In contrast,
`triggerUnifiedStackBackup` (line 106), `restoreUnifiedStackBackup`
(line 779), `restoreBackup` (line 716) and `restoreToNewContainer` perform
their work directly inside the server-action call and set `processing`
without going through the queue. -/

structure QState where
  queue : List String
  running : Option String
  jobs : String → Option JobStatus

def initQState : QState := ⟨[], none, fun _ => none⟩

/-- `updateJobStatus` (scheduler.ts lines 63-69). -/
def jobUpdate (f : String → Option JobStatus) (jid : String) (st : JobStatus) :
    String → Option JobStatus :=
  fun k => if k = jid then some st else f k

/-- Steps of the whole system: the four queue transitions plus the direct
(unqueued) stack-backup, stack-restore and restore paths. -/
inductive SysStep : QState → QState → Prop
  | enqueueBackup (s : QState) (jid : String) :
      SysStep s ⟨s.queue ++ [jid], s.running, jobUpdate s.jobs jid .pending⟩
  | workerStart (s : QState) (jid : String) (rest : List String)
      (hq : s.queue = jid :: rest) (hr : s.running = none) :
      SysStep s ⟨rest, some jid, jobUpdate s.jobs jid .processing⟩
  | workerUploading (s : QState) (jid : String) (hr : s.running = some jid) :
      SysStep s ⟨s.queue, some jid, jobUpdate s.jobs jid .uploading⟩
  | workerFinish (s : QState) (jid : String) (ok : Bool) (hr : s.running = some jid) :
      SysStep s
        ⟨s.queue, none, jobUpdate s.jobs jid (if ok then .completed else .failed)⟩
  | stackBackupStart (s : QState) (stackName : String) :
      SysStep s
        ⟨s.queue, s.running, jobUpdate s.jobs ("stack-" ++ stackName) .processing⟩
  | stackBackupFinish (s : QState) (stackName : String) (ok : Bool) :
      SysStep s
        ⟨s.queue, s.running,
         jobUpdate s.jobs ("stack-" ++ stackName) (if ok then .completed else .failed)⟩
  | stackRestoreStart (s : QState) (rid : String) :
      SysStep s
        ⟨s.queue, s.running, jobUpdate s.jobs ("restore-stack-" ++ rid) .processing⟩
  | directRestoreStart (s : QState) (jid : String) :
      SysStep s ⟨s.queue, s.running, jobUpdate s.jobs jid .processing⟩

def SysReachable (s : QState) : Prop :=
  Relation.ReflTransGen SysStep initQState s

def twoStacksState : QState :=
  ⟨[], none,
   jobUpdate (jobUpdate (fun _ => none) "stack-a" .processing) "stack-b" .processing⟩

/-- Only the queue-mediated transitions (the behaviour the spec describes
for backup jobs). -/
inductive QueueStep : QState → QState → Prop
  | enqueueBackup (s : QState) (jid : String) :
      QueueStep s ⟨s.queue ++ [jid], s.running, jobUpdate s.jobs jid .pending⟩
  | workerStart (s : QState) (jid : String) (rest : List String)
      (hq : s.queue = jid :: rest) (hr : s.running = none) :
      QueueStep s ⟨rest, some jid, jobUpdate s.jobs jid .processing⟩
  | workerUploading (s : QState) (jid : String) (hr : s.running = some jid) :
      QueueStep s ⟨s.queue, some jid, jobUpdate s.jobs jid .uploading⟩
  | workerFinish (s : QState) (jid : String) (ok : Bool) (hr : s.running = some jid) :
      QueueStep s
        ⟨s.queue, none, jobUpdate s.jobs jid (if ok then .completed else .failed)⟩

def QueueReachable (s : QState) : Prop :=
  Relation.ReflTransGen QueueStep initQState s

/-- Inductive invariant: any processing job is the one the worker runs. -/
def ProcInv (s : QState) : Prop :=
  ∀ jid, s.jobs jid = some JobStatus.processing → s.running = some jid

def qStateOne : QState :=
  ⟨["c1"], none, jobUpdate (fun _ => none) "c1" JobStatus.pending⟩

def qStateTwo : QState :=
  ⟨[], some "c1",
   jobUpdate (jobUpdate (fun _ => none) "c1" JobStatus.pending) "c1"
     JobStatus.processing⟩

/-! ### Phase-0 stack cleanup (claim C6)
From src/unnamed/part_005, `restoreUnifiedStackBackup`, lines 873-889: every
container whose compose-project label equals the stack name is stopped
(`container.stop({ t: 10 })`) and removed with
`container.remove({ v: true, force: true })`. Container removal semantics
follow the Docker Engine API the code consumes (an external collaborator):
with the `v` flag the engine also deletes the removed container's ANONYMOUS
volumes that are not referenced by another container; named volumes are
never deleted by this call. Stopping affects only the run state, which this
volume-frame model does not track. -/

structure EngVolume where
  volName : String
  anonymous : Bool
deriving DecidableEq, Repr

structure EngContainer where
  cid : String
  projectLabel : Option String
  attachedVols : List EngVolume
deriving DecidableEq, Repr

structure EngineSt where
  containers : List EngContainer
  hostVolumes : List EngVolume
deriving DecidableEq, Repr

def survivingContainers (s : EngineSt) (cid : String) : List EngContainer :=
  s.containers.filter (fun c => c.cid != cid)

/-- Anonymous volumes of the removed container that no surviving container
still references; these are what the engine deletes under `v: true`. -/
def removedAnonVolumes (s : EngineSt) (cid : String) : List EngVolume :=
  ((s.containers.filter (fun c => c.cid == cid)).foldr
      (fun c acc => c.attachedVols ++ acc) []).filter
    (fun v => v.anonymous &&
      !((survivingContainers s cid).any (fun c => c.attachedVols.contains v)))

/-- Engine-side container removal; `removeVolumes` is the `v` flag. -/
def removeContainer (s : EngineSt) (cid : String) (removeVolumes : Bool) :
    EngineSt :=
  ⟨survivingContainers s cid,
   s.hostVolumes.filter
     (fun v => !((if removeVolumes then removedAnonVolumes s cid else []).contains v))⟩

/-- The Phase-0 loop body applied to every matched container in order. -/
def removeAll (targets : List EngContainer) (s : EngineSt) : EngineSt :=
  targets.foldl (fun st c => removeContainer st c.cid true) s

/-- Phase-0 cleanup (lines 874-886): match by compose-project label, then
stop and remove each matched container with `v: true, force: true`. -/
def phase0Cleanup (stackName : String) (s : EngineSt) : EngineSt :=
  removeAll (s.containers.filter (fun c => c.projectLabel == some stackName)) s

def demoStackContainer : EngContainer := ⟨"c1", some "web", [⟨"anon1", true⟩]⟩

def demoEngineSt : EngineSt :=
  ⟨[demoStackContainer], [⟨"anon1", true⟩, ⟨"dbdata", false⟩]⟩

/-- A container outside the "web" stack, owning an anonymous volume. -/
def demoOtherContainer : EngContainer := ⟨"c2", some "other", [⟨"keepme", true⟩]⟩

/-- Demo state with a stack container and an unrelated container. -/
def demoEngineSt2 : EngineSt :=
  ⟨[demoStackContainer, demoOtherContainer],
   [⟨"anon1", true⟩, ⟨"keepme", true⟩, ⟨"dbdata", false⟩]⟩

/-! ### Path escape round trip (claim C4)
Backup-side encoding: `archiveContainerInternal` line 426 builds
`safeName = volPath.replace(/[\/\\]/g,'_').replace(/^_/,'') + '.tar'` and
appends it under `volumes/` (line 429). Stack-restore decoding:
`restoreVolumesInternal` lines 565-571 strips the `volumes/` prefix
(a first-occurrence replace), removes the first ".tar", turns every
underscore into a slash and prepends a slash when missing. Clone-restore
decoding: `restoreToNewContainer` lines 1616-1621 decodes the FULL entry
name: underscores to slashes first, then the first ".tar" removed, then a
slash prepended when missing — the `volumes/` prefix is never stripped on
this path. All definitions work on `List Char`. -/

def unescapeChar (c : Char) : Char := if c = '_' then '/' else c

def ensureSlash (l : List Char) : List Char :=
  if l.head? = some '/' then l else '/' :: l

/-- Full archive entry name (empty prefix case) for a captured path. -/
def volumeEntryChars (p : List Char) : List Char :=
  "volumes/".data ++ stripLeadUnd (p.map escapeChar) ++ ".tar".data

/-- Stack restore decode (lines 568-571). -/
def stackRestoreDecode (volPre entryName : List Char) : List Char :=
  ensureSlash
    ((replaceFirst ".tar".data [] (replaceFirst volPre [] entryName)).map unescapeChar)

/-- Clone restore decode (lines 1619-1620). -/
def cloneRestoreDecode (entryName : List Char) : List Char :=
  ensureSlash (replaceFirst ".tar".data [] (entryName.map unescapeChar))

def tarPat : List Char := ['.', 't', 'a', 'r']

/-- No occurrence of `pat` in `s ++ pat` starts strictly inside `s`. -/
def noEarlyHit (pat : List Char) : List Char → Bool
  | [] => true
  | c :: rest => !(pat.isPrefixOf ((c :: rest) ++ pat)) && noEarlyHit pat rest

/-! ### Theorems settling the claims, with their supporting lemmas -/

/-! ### Theorems for C8, C9, C10 -/

theorem containsSub_append_self (pat a : List Char) :
    containsSub pat (a ++ pat) = true := by
  induction a with
  | nil =>
    cases pat with
    | nil => rfl
    | cons c rest =>
      simp only [List.nil_append, containsSub]
      rw [List.isPrefixOf_iff_prefix.mpr List.prefix_rfl]
      rfl
  | cons c a ih =>
    simp only [List.cons_append, containsSub, List.append_eq, ih, Bool.or_true]

/-- Claim C8 (counterexample): the claim says the value for input "K=a=b" is
"a=b"; the code destructures `e.split('=')` into `[k, v]`, so the value is
only "a" and the text after the second "=" is dropped. -/
theorem envSplit_counterexample :
    parseEnvArray ["K=a=b"] = [("K", "a")] ∧
    parseEnvArray ["K=a=b"] ≠ [("K", "a=b")] := by
  constructor
  · rfl
  · decide

theorem jsSplit_ne_nil (sep : Char) (l : List Char) : jsSplit sep l ≠ [] := by
  cases l with
  | nil => simp [jsSplit]
  | cons c rest =>
    by_cases hc : c = sep <;> simp [jsSplit, hc]

theorem jsSplit_append_sep (sep : Char) (a b : List Char) (ha : sep ∉ a) :
    jsSplit sep (a ++ sep :: b) = a :: jsSplit sep b := by
  induction a with
  | nil => simp [jsSplit]
  | cons c a ih =>
    have hc : c ≠ sep := fun h => ha (h ▸ List.mem_cons_self c a)
    have ha' : sep ∉ a := fun h => ha (List.mem_cons_of_mem c h)
    have hr := ih ha'
    simp only [List.cons_append, jsSplit, List.append_eq]
    rw [hr]
    simp [hc]

theorem jsSplit_no_sep (sep : Char) (a : List Char) (ha : sep ∉ a) :
    jsSplit sep a = [a] := by
  induction a with
  | nil => rfl
  | cons c a ih =>
    have hc : c ≠ sep := fun h => ha (h ▸ List.mem_cons_self c a)
    have ha' : sep ∉ a := fun h => ha (List.mem_cons_of_mem c h)
    simp [jsSplit, ih ha', hc]

/-- Claim C8 (amended): the parser keeps only the first two `split('=')`
segments: for an entry `k=v` (no further "=" in `v`) the parsed value is `v`,
and for an entry `k=v=w` the parsed value is still just `v` — everything
after the second "=" is discarded. An empty value is permitted. -/
theorem envSplit_amended (k v w : List Char)
    (hk : k ≠ []) (hke : '=' ∉ k) (hve : '=' ∉ v) (hwe : '=' ∉ w) :
    parseEnvArrayEntry [] ⟨k ++ '=' :: v⟩ = [(⟨k⟩, ⟨v⟩)] ∧
    parseEnvArrayEntry [] ⟨k ++ '=' :: (v ++ '=' :: w)⟩ = [(⟨k⟩, ⟨v⟩)] := by
  constructor
  · simp only [parseEnvArrayEntry]
    rw [jsSplit_append_sep '=' k v hke, jsSplit_no_sep '=' v hve]
    simp [hk, setEnv]
  · simp only [parseEnvArrayEntry]
    rw [jsSplit_append_sep '=' k (v ++ '=' :: w) hke,
        jsSplit_append_sep '=' v w hve, jsSplit_no_sep '=' w hwe]
    simp [hk, setEnv]

/-- Witness for envSplit_amended at concrete input KEY=alpha=beta. -/
theorem envSplit_amended_witness :
    parseEnvArrayEntry [] ⟨"KEY".data ++ '=' :: ("alpha".data ++ '=' :: "beta".data)⟩
      = [(⟨"KEY".data⟩, ⟨"alpha".data⟩)] :=
  (envSplit_amended "KEY".data "alpha".data "beta".data
    (by decide) (by decide) (by decide) (by decide)).2

/-- Claim C9: the history store is bounded to 200 entries, the new entry is
placed first, and when the bound was already reached exactly the oldest
(last) entry is evicted while the others are unchanged. -/
theorem historyBounded_thm {α : Type} (entry : α) (history : List α)
    (h : history.length ≤ 200) :
    (addHistoryEntry entry history).length ≤ 200 ∧
    (addHistoryEntry entry history).head? = some entry ∧
    (history.length = 200 → addHistoryEntry entry history = entry :: history.dropLast) ∧
    (history.length < 200 → addHistoryEntry entry history = entry :: history) := by
  by_cases hc : 200 < (entry :: history).length
  · have h200 : history.length = 200 := by
      simp only [List.length_cons] at hc
      omega
    have hne : history ≠ [] := by
      intro hnil
      rw [hnil] at h200
      simp at h200
    have hdl : (entry :: history).dropLast = entry :: history.dropLast := by
      cases history with
      | nil => exact absurd rfl hne
      | cons x xs => rfl
    have he : addHistoryEntry entry history = entry :: history.dropLast := by
      rw [addHistoryEntry, if_pos hc, hdl]
    refine ⟨?_, ?_, ?_, ?_⟩
    · rw [he]
      simp only [List.length_cons, List.length_dropLast]
      omega
    · rw [he]
      rfl
    · intro _
      exact he
    · intro hlt
      omega
  · have hle : history.length < 200 := by
      simp only [List.length_cons, not_lt] at hc
      omega
    have he : addHistoryEntry entry history = entry :: history := by
      rw [addHistoryEntry, if_neg hc]
    refine ⟨?_, ?_, ?_, ?_⟩
    · rw [he]
      simp only [List.length_cons]
      omega
    · rw [he]
      rfl
    · intro h200
      omega
    · intro _
      exact he

/-- Witness for historyBounded_thm on a concrete short history. -/
theorem historyBounded_thm_witness :
    [1, 2].length ≤ 200 ∧ addHistoryEntry 9 [1, 2] = 9 :: [1, 2] :=
  ⟨by decide, (historyBounded_thm 9 [1, 2] (by decide)).2.2.2 (by decide)⟩

/-- Claim C10: when the Telegram upload of a finalized artifact fails, the
job terminates as completed with message "Saved Local (Telegram Failed)"
(not failed); the history entry records status failed, destination local and
the upload error inside its message; the local file is not deleted. -/
theorem telegramFailure_thm (e : String) :
    handleUpload true (.error e) =
      ⟨.completed, "Saved Local (Telegram Failed)", .failed, .local,
       "Telegram upload failed: " ++ e, false⟩ ∧
    strContains ("Telegram upload failed: " ++ e) e = true := by
  refine ⟨rfl, ?_⟩
  unfold strContains
  rw [show ("Telegram upload failed: " ++ e).data
        = "Telegram upload failed: ".data ++ e.data from rfl]
  exact containsSub_append_self e.data "Telegram upload failed: ".data

/-- Claim C5 (counterexample): when no port is available the loop does probe
port 65535 (the condition calls `isPortAvailable(65535)` before comparing
`port < 65535`) and then RETURNS 65535 instead of failing cleanly. -/
theorem portProbe_counterexample :
    findAvailablePort (fun _ => false) 65534 = 65535 ∧
    65535 ∈ probedPorts (fun _ => false) 65534 := by
  constructor
  · rfl
  · decide

theorem findPortLoop_exists (avail : Nat → Bool) :
    ∀ fuel port : Nat, 65535 - port < fuel →
      (∃ p, port ≤ p ∧ p ≤ 65534 ∧ avail p = true) →
      (avail (findPortLoop avail fuel port) = true ∧
       port ≤ findPortLoop avail fuel port ∧
       findPortLoop avail fuel port ≤ 65534 ∧
       ∀ q, port ≤ q → q < findPortLoop avail fuel port → avail q = false) := by
  intro fuel
  induction fuel with
  | zero =>
    intro port hf _
    omega
  | succ fuel ih =>
    intro port hf hex
    obtain ⟨p, hp1, hp2, hp3⟩ := hex
    by_cases ha : avail port = true
    · have hres : findPortLoop avail (fuel + 1) port = port := by
        simp [findPortLoop, ha]
      rw [hres]
      exact ⟨ha, le_refl port, by omega, fun q hq1 hq2 => by omega⟩
    · have hanf : avail port = false := by
        cases h : avail port
        · rfl
        · exact absurd h ha
      have hpn : port ≠ p := fun h => ha (h ▸ hp3)
      have hlt : port < 65535 := by omega
      have hres : findPortLoop avail (fuel + 1) port
          = findPortLoop avail fuel (port + 1) := by
        simp [findPortLoop, hanf, hlt]
      rw [hres]
      have hrec := ih (port + 1) (by omega) ⟨p, by omega, hp2, hp3⟩
      obtain ⟨h1, h2, h3, h4⟩ := hrec
      refine ⟨h1, by omega, h3, ?_⟩
      intro q hq1 hq2
      by_cases hq : q = port
      · exact hq ▸ hanf
      · exact h4 q (by omega) hq2

theorem findPortLoop_exhausted (avail : Nat → Bool) :
    ∀ fuel port : Nat, 65535 - port < fuel → port ≤ 65535 →
      (∀ p, port ≤ p → p ≤ 65534 → avail p = false) →
      findPortLoop avail fuel port = 65535 := by
  intro fuel
  induction fuel with
  | zero =>
    intro port hf _ _
    omega
  | succ fuel ih =>
    intro port hf hle hall
    by_cases h65 : port = 65535
    · subst h65
      by_cases ha : avail 65535 = true
      · simp [findPortLoop, ha]
      · have hanf : avail 65535 = false := by
          cases h : avail 65535
          · rfl
          · exact absurd h ha
        simp [findPortLoop, hanf]
    · have hlt : port < 65535 := by omega
      have hanf : avail port = false := hall port (le_refl port) (by omega)
      have hres : findPortLoop avail (fuel + 1) port
          = findPortLoop avail fuel (port + 1) := by
        simp [findPortLoop, hanf, hlt]
      rw [hres]
      exact ih (port + 1) (by omega) (by omega) (fun p h1 h2 => hall p (by omega) h2)

/-- Claim C5 (amended): below 65535 the probe does return the first
available port at or after the requested one; but when every port up to
65534 is unavailable the loop returns 65535 (after probing it) rather than
failing cleanly. -/
theorem portProbe_amended (avail : Nat → Bool) (startPort : Nat) :
    ((∃ p, startPort ≤ p ∧ p ≤ 65534 ∧ avail p = true) →
      (avail (findAvailablePort avail startPort) = true ∧
       startPort ≤ findAvailablePort avail startPort ∧
       findAvailablePort avail startPort ≤ 65534 ∧
       ∀ q, startPort ≤ q → q < findAvailablePort avail startPort →
         avail q = false)) ∧
    ((∀ p, startPort ≤ p → p ≤ 65534 → avail p = false) → startPort ≤ 65535 →
      findAvailablePort avail startPort = 65535) := by
  constructor
  · intro hex
    exact findPortLoop_exists avail 65536 startPort (by omega) hex
  · intro hall hle
    exact findPortLoop_exhausted avail 65536 startPort (by omega) hle hall

/-- Witness for portProbe_amended at concrete oracles. -/
theorem portProbe_amended_witness :
    availOnly8090 (findAvailablePort availOnly8090 8088) = true ∧
    findAvailablePort availOnly8090 8088 ≤ 65534 ∧
    findAvailablePort availNever 65000 = 65535 :=
  ⟨((portProbe_amended availOnly8090 8088).1 ⟨8090, by decide, by decide, by decide⟩).1,
   ((portProbe_amended availOnly8090 8088).1 ⟨8090, by decide, by decide, by decide⟩).2.2.1,
   (portProbe_amended availNever 65000).2 (fun p h1 h2 => rfl) (by decide)⟩

/-- Claim C7 (counterexample): on a zero-byte dump the job does fail (no
artifact is finalized), but nothing of the stderr captured from the dump
command (here "FATAL: role missing") reaches the job or history message:
the "Empty SQL Dump" rejection is orphaned in the async promise executor,
the surfaced message is the stage-timeout text "Backup timed out", and the
stderr stream itself is piped to the server process stderr. -/
theorem emptyDumpStderr_counterexample :
    dbDumpJobFailure 0 "FATAL: role missing" =
      some (.failed, "Backup timed out", .failed, "Backup timed out") ∧
    strContains "Backup timed out" "FATAL: role missing" = false ∧
    dumpSizeCheck 0 = .error "Empty SQL Dump" ∧
    emptyDumpRejectionTarget = .orphanedExecutorPromise ∧
    dumpStderrSink = .processStderr := by
  refine ⟨rfl, ?_, rfl, rfl, rfl⟩
  decide

/-- Claim C7 (amended): a zero-byte dump aborts the archive stage before
`archive.finalize()`, so no artifact is finalized as successful and the job
ends failed; but the inner "Empty SQL Dump" rejection settles only the
orphaned executor promise, so the failure that surfaces to the job — and,
for a single-container backup, to its history entry — is the stage timeout
("Backup timed out"; "Unified Backup timeout" for a stack job, job status
only), independent of whatever the dump command wrote to stderr, which is
piped to the server process stderr and appears in neither message. -/
theorem emptyDump_amended (stderrText : String) :
    dbDumpJobFailure 0 stderrText =
      some (.failed, singleBackupTimeoutMessage, .failed, singleBackupTimeoutMessage) ∧
    stackDumpJobFailure 0 stderrText = some (.failed, stackBackupTimeoutMessage) ∧
    dumpSizeCheck 0 = .error "Empty SQL Dump" ∧
    emptyDumpRejectionTarget = .orphanedExecutorPromise ∧
    dumpStderrSink = .processStderr :=
  ⟨rfl, rfl, rfl, rfl, rfl⟩

/-- Claim C1 (counterexample): for a database image the FIRST entry appended
by `archiveContainerInternal` is `dump.sql`, not `config.json` — the claim
that config.json precedes dump.sql in the dump branch is false. -/
theorem dbDumpEntryOrder_counterexample :
    archiveContainerEntries "postgres:16" "" [] (fun _ => true) =
      ["dump.sql", "config.json", "volumes_none.txt"] ∧
    (archiveContainerEntries "postgres:16" "" [] (fun _ => true)).head? ≠
      some "config.json" := by
  constructor
  · rfl
  · decide

/-- Claim C1 (amended): a unified-stack artifact does begin with
`stack_metadata.json`, and a volume-branch container artifact begins with
`config.json`; but in the database-dump branch `dump.sql` is appended before
`config.json` (dump at line 380, config at line 418). -/
theorem metadataFirst_amended (image pre : String) (paths : List String)
    (tarOk : String → Bool) (hasYaml hasEnv : Bool)
    (svcs : List (String × String × List String)) :
    (isDbImage image = false →
      (archiveContainerEntries image pre paths tarOk).head? =
        some (joinPath pre "config.json")) ∧
    (isDbImage image = true →
      (archiveContainerEntries image pre paths tarOk).take 2 =
        [joinPath pre "dump.sql", joinPath pre "config.json"]) ∧
    (stackBackupEntries hasYaml hasEnv svcs tarOk).head? =
      some "stack_metadata.json" := by
  refine ⟨?_, ?_, rfl⟩
  · intro h
    simp [archiveContainerEntries, h]
  · intro h
    simp [archiveContainerEntries, h]

/-- Witness for metadataFirst_amended at concrete inputs. -/
theorem metadataFirst_amended_witness :
    (archiveContainerEntries "nginx:latest" "" ["/usr/share/nginx/html"]
        (fun _ => true)).head? = some (joinPath "" "config.json") ∧
    (archiveContainerEntries "postgres:16" "services/db" [] (fun _ => true)).take 2 =
      [joinPath "services/db" "dump.sql", joinPath "services/db" "config.json"] :=
  ⟨(metadataFirst_amended "nginx:latest" "" ["/usr/share/nginx/html"]
      (fun _ => true) true false []).1 (by decide),
   (metadataFirst_amended "postgres:16" "services/db" [] (fun _ => true)
      true false []).2.1 (by decide)⟩

/-- Claim C3 (counterexample): for captured path /usr/share/nginx/html the
entry is `volumes/usr_share_nginx_html.tar` — inside the `volumes/`
directory and with the leading underscore stripped — not
`_usr_share_nginx_html.tar` at the archive root as claimed. -/
theorem volumeEntryName_counterexample :
    archiveContainerEntries "nginx:latest" "" ["/usr/share/nginx/html"]
      (fun _ => true) = ["config.json", "volumes/usr_share_nginx_html.tar"] ∧
    archiveContainerEntries "nginx:latest" "" ["/usr/share/nginx/html"]
      (fun _ => true) ≠ ["config.json", "_usr_share_nginx_html.tar"] := by
  constructor
  · rfl
  · decide

/-- Claim C3 (amended): each captured path p of a volume-strategy backup
yields the entry `volumes/<escaped p, leading underscore stripped>.tar`
under the given prefix; for a single captured path the artifact entries are
exactly `config.json` and that tar entry. -/
theorem volumeEntryName_amended (image pre p : String) (tarOk : String → Bool)
    (hdb : isDbImage image = false) (hok : tarOk p = true) :
    archiveContainerEntries image pre [p] tarOk =
      [joinPath pre "config.json",
       joinPath pre ("volumes/" ++ safeVolName p)] := by
  simp [archiveContainerEntries, hdb, volumeSectionEntries, hok]

/-- Witness for volumeEntryName_amended at the spec scenario path. -/
theorem volumeEntryName_amended_witness :
    archiveContainerEntries "nginx:latest" "" ["/usr/share/nginx/html"]
      (fun _ => true) =
      [joinPath "" "config.json",
       joinPath "" ("volumes/" ++ safeVolName "/usr/share/nginx/html")] :=
  volumeEntryName_amended "nginx:latest" "" "/usr/share/nginx/html"
    (fun _ => true) (by decide) rfl

/-- Claim C2 (counterexample): two concurrently triggered unified stack
backups each set their virtual job to `processing` directly, without
passing through the single-concurrency queue, so a state with two distinct
jobs simultaneously in `processing` is reachable. -/
theorem twoProcessingReachable_counterexample :
    SysReachable twoStacksState ∧
    twoStacksState.jobs "stack-a" = some JobStatus.processing ∧
    twoStacksState.jobs "stack-b" = some JobStatus.processing ∧
    "stack-a" ≠ "stack-b" := by
  refine ⟨?_, by decide, by decide, by decide⟩
  exact Relation.ReflTransGen.tail
    (Relation.ReflTransGen.tail Relation.ReflTransGen.refl
      (SysStep.stackBackupStart initQState "a"))
    (SysStep.stackBackupStart _ "b")

theorem queueStep_preserves_procInv (s t : QState) (hs : ProcInv s)
    (hstep : QueueStep s t) : ProcInv t := by
  cases hstep with
  | enqueueBackup jid =>
    intro j hj
    simp only [jobUpdate] at hj ⊢
    by_cases h : j = jid
    · rw [if_pos h] at hj
      exact absurd (Option.some.inj hj) (by decide)
    · rw [if_neg h] at hj
      exact hs j hj
  | workerStart jid rest hq hr =>
    intro j hj
    simp only [jobUpdate] at hj
    by_cases h : j = jid
    · simp [h]
    · rw [if_neg h] at hj
      have h2 := hs j hj
      rw [hr] at h2
      exact absurd h2 (by simp)
  | workerUploading jid hr =>
    intro j hj
    simp only [jobUpdate] at hj
    by_cases h : j = jid
    · rw [if_pos h] at hj
      exact absurd (Option.some.inj hj) (by decide)
    · rw [if_neg h] at hj
      have h3 := Option.some.inj ((hs j hj).symm.trans hr)
      exact absurd h3 h
  | workerFinish jid ok hr =>
    intro j hj
    simp only [jobUpdate] at hj
    by_cases h : j = jid
    · rw [if_pos h] at hj
      have h4 := Option.some.inj hj
      cases ok <;> simp_all
    · rw [if_neg h] at hj
      have h3 := Option.some.inj ((hs j hj).symm.trans hr)
      exact absurd h3 h

theorem queueReachable_procInv (s : QState) (h : QueueReachable s) : ProcInv s := by
  induction h with
  | refl =>
    intro jid hj
    exact absurd hj (by simp [initQState])
  | tail hab hbc ih => exact queueStep_preserves_procInv _ _ ih hbc

/-- Claim C2 (amended): jobs driven through the single-concurrency backup
queue are serialized — in any state reachable by queue transitions alone at
most one job id is in `processing`. The full system, however, also contains
unqueued paths (stack backup, stack restore, direct restore) that violate
the global at-most-one-processing property, as the counterexample shows. -/
theorem queueOnly_atMostOneProcessing (s : QState) (h : QueueReachable s)
    (j1 j2 : String)
    (h1 : s.jobs j1 = some JobStatus.processing)
    (h2 : s.jobs j2 = some JobStatus.processing) : j1 = j2 := by
  have inv := queueReachable_procInv s h
  exact Option.some.inj ((inv j1 h1).symm.trans (inv j2 h2))

/-- Witness for queueOnly_atMostOneProcessing at a concrete reachable
state. -/
theorem queueOnly_atMostOneProcessing_witness :
    qStateTwo.jobs "c1" = some JobStatus.processing ∧ "c1" = "c1" := by
  have hreach : QueueReachable qStateTwo :=
    Relation.ReflTransGen.tail
      (Relation.ReflTransGen.tail Relation.ReflTransGen.refl
        (QueueStep.enqueueBackup initQState "c1"))
      (QueueStep.workerStart qStateOne "c1" [] rfl rfl)
  have hjob : qStateTwo.jobs "c1" = some JobStatus.processing := by decide
  exact ⟨hjob, queueOnly_atMostOneProcessing qStateTwo hreach "c1" "c1" hjob hjob⟩

/-- Claim C6 (counterexample): Phase-0 cleanup removes the stack container
with `v: true`, which deletes its anonymous volume "anon1" from the host —
the host volume set is NOT left unchanged as the claim states. -/
theorem phase0Volumes_counterexample :
    (phase0Cleanup "web" demoEngineSt).hostVolumes = [⟨"dbdata", false⟩] ∧
    (phase0Cleanup "web" demoEngineSt).hostVolumes ≠ demoEngineSt.hostVolumes := by
  constructor
  · rfl
  · decide

theorem removedAnon_anonymous (s : EngineSt) (cid : String) (v : EngVolume)
    (h : v ∈ removedAnonVolumes s cid) : v.anonymous = true := by
  have h2 := (List.mem_filter.mp h).2
  simp only [Bool.and_eq_true] at h2
  exact h2.1

theorem removeContainer_named_kept (s : EngineSt) (cid : String) (rv : Bool)
    (v : EngVolume) (hv : v ∈ s.hostVolumes) (hn : v.anonymous = false) :
    v ∈ (removeContainer s cid rv).hostVolumes := by
  apply List.mem_filter.mpr
  refine ⟨hv, ?_⟩
  cases rv with
  | false => simp
  | true =>
    simp only [if_true, Bool.not_eq_true']
    cases hcon : (removedAnonVolumes s cid).contains v with
    | false => rfl
    | true =>
      have hmem : v ∈ removedAnonVolumes s cid := List.elem_iff.mp hcon
      rw [removedAnon_anonymous s cid v hmem] at hn
      exact absurd hn (by decide)

theorem removeContainer_vol_subset (s : EngineSt) (cid : String) (rv : Bool)
    (v : EngVolume) (hv : v ∈ (removeContainer s cid rv).hostVolumes) :
    v ∈ s.hostVolumes :=
  List.mem_of_mem_filter hv

theorem removeAll_named_kept (targets : List EngContainer) :
    ∀ (s : EngineSt) (v : EngVolume), v ∈ s.hostVolumes → v.anonymous = false →
      v ∈ (removeAll targets s).hostVolumes := by
  induction targets with
  | nil => intro s v hv _; exact hv
  | cons t ts ih =>
    intro s v hv hn
    exact ih (removeContainer s t.cid true) v
      (removeContainer_named_kept s t.cid true v hv hn) hn

theorem removeAll_vol_subset (targets : List EngContainer) :
    ∀ (s : EngineSt) (v : EngVolume),
      v ∈ (removeAll targets s).hostVolumes → v ∈ s.hostVolumes := by
  induction targets with
  | nil => intro s v hv; exact hv
  | cons t ts ih =>
    intro s v hv
    exact removeContainer_vol_subset s t.cid true v
      (ih (removeContainer s t.cid true) v hv)

theorem removeAll_container_subset (targets : List EngContainer) :
    ∀ (s : EngineSt) (c : EngContainer),
      c ∈ (removeAll targets s).containers → c ∈ s.containers := by
  induction targets with
  | nil => intro s c hc; exact hc
  | cons t ts ih =>
    intro s c hc
    exact List.mem_of_mem_filter (ih (removeContainer s t.cid true) c hc)

theorem removeAll_removes_cid (targets : List EngContainer) :
    ∀ (s : EngineSt) (c : EngContainer),
      (∃ t, t ∈ targets ∧ t.cid = c.cid) → c ∉ (removeAll targets s).containers := by
  induction targets with
  | nil =>
    intro s c hex
    obtain ⟨t, ht, _⟩ := hex
    exact absurd ht (List.not_mem_nil t)
  | cons t ts ih =>
    intro s c hex hc
    obtain ⟨t2, ht2, hcid⟩ := hex
    rcases List.mem_cons.mp ht2 with h | h
    · subst h
      have hcin : c ∈ (removeContainer s t2.cid true).containers :=
        removeAll_container_subset ts (removeContainer s t2.cid true) c hc
      have := (List.mem_filter.mp hcin).2
      rw [hcid] at this
      simp at this
    · exact ih (removeContainer s t.cid true) c ⟨t2, h, hcid⟩ hc

theorem removeContainer_container_kept (s : EngineSt) (cid : String) (rv : Bool)
    (c : EngContainer) (hc : c ∈ s.containers) (hne : c.cid ≠ cid) :
    c ∈ (removeContainer s cid rv).containers := by
  apply List.mem_filter.mpr
  exact ⟨hc, by simp [hne]⟩

theorem removeContainer_referenced_kept (s : EngineSt) (cid : String) (rv : Bool)
    (c : EngContainer) (v : EngVolume) (hc : c ∈ s.containers) (hne : c.cid ≠ cid)
    (hatt : v ∈ c.attachedVols) (hv : v ∈ s.hostVolumes) :
    v ∈ (removeContainer s cid rv).hostVolumes := by
  apply List.mem_filter.mpr
  refine ⟨hv, ?_⟩
  cases rv with
  | false => simp
  | true =>
    simp only [if_true, Bool.not_eq_true']
    cases hcon : (removedAnonVolumes s cid).contains v with
    | false => rfl
    | true =>
      exfalso
      have hmem : v ∈ removedAnonVolumes s cid := List.elem_iff.mp hcon
      have h2 := (List.mem_filter.mp hmem).2
      simp only [Bool.and_eq_true] at h2
      have hany : (survivingContainers s cid).any
          (fun c2 => c2.attachedVols.contains v) = true := by
        apply List.any_eq_true.mpr
        refine ⟨c, ?_, ?_⟩
        · exact List.mem_filter.mpr ⟨hc, by simp [hne]⟩
        · exact List.elem_iff.mpr hatt
      rw [hany] at h2
      exact absurd h2.2 (by decide)

theorem removeAll_nonmatching_kept (targets : List EngContainer) :
    ∀ (st : EngineSt) (c : EngContainer), c ∈ st.containers →
      (∀ t, t ∈ targets → t.cid ≠ c.cid) →
      c ∈ (removeAll targets st).containers ∧
      (∀ v, v ∈ c.attachedVols → v ∈ st.hostVolumes →
        v ∈ (removeAll targets st).hostVolumes) := by
  induction targets with
  | nil =>
    intro st c hc _
    exact ⟨hc, fun v _ hv => hv⟩
  | cons t ts ih =>
    intro st c hc hdisj
    have hne : c.cid ≠ t.cid :=
      fun h => (hdisj t (List.mem_cons_self t ts)) h.symm
    have hc2 : c ∈ (removeContainer st t.cid true).containers :=
      removeContainer_container_kept st t.cid true c hc hne
    have ihres := ih (removeContainer st t.cid true) c hc2
      (fun t2 ht2 => hdisj t2 (List.mem_cons_of_mem t ht2))
    refine ⟨ihres.1, ?_⟩
    intro v hatt hv
    exact ihres.2 v hatt
      (removeContainer_referenced_kept st t.cid true c v hc hne hatt hv)

/-- Claim C6 (amended): assuming engine-unique container ids, Phase-0
cleanup removes exactly the container objects of the named stack — every
stack-labelled container is gone and every other container survives — and,
because `remove` is called with `v: true`, the engine also deletes the
removed containers' exclusively-owned anonymous volumes; named volumes all
survive, anonymous volumes attached to a surviving container survive, and
no volume appears from nowhere. So the claim's frame condition fails only
for anonymous volumes owned solely by the removed stack containers, as the
counterexample shows. -/
theorem phase0Frame_amended (stackName : String) (s : EngineSt)
    (hnodup : (s.containers.map (fun c => c.cid)).Nodup) :
    (∀ v, v ∈ s.hostVolumes → v.anonymous = false →
        v ∈ (phase0Cleanup stackName s).hostVolumes) ∧
    (∀ v, v ∈ (phase0Cleanup stackName s).hostVolumes → v ∈ s.hostVolumes) ∧
    (∀ c, c ∈ (phase0Cleanup stackName s).containers → c ∈ s.containers) ∧
    (∀ c, c ∈ s.containers → c.projectLabel = some stackName →
        c ∉ (phase0Cleanup stackName s).containers) ∧
    (∀ c, c ∈ s.containers → c.projectLabel ≠ some stackName →
        c ∈ (phase0Cleanup stackName s).containers) ∧
    (∀ c v, c ∈ s.containers → c.projectLabel ≠ some stackName →
        v ∈ c.attachedVols → v ∈ s.hostVolumes →
        v ∈ (phase0Cleanup stackName s).hostVolumes) := by
  have hdisj : ∀ c, c ∈ s.containers → c.projectLabel ≠ some stackName →
      ∀ t, t ∈ s.containers.filter (fun c2 => c2.projectLabel == some stackName) →
        t.cid ≠ c.cid := by
    intro c hc hcl t ht heq
    have hm := List.mem_filter.mp ht
    have hlab : t.projectLabel = some stackName := by
      have hp := hm.2
      simpa using hp
    have hteq : t = c := List.inj_on_of_nodup_map hnodup hm.1 hc heq
    rw [hteq] at hlab
    exact hcl hlab
  refine ⟨?_, ?_, ?_, ?_, ?_, ?_⟩
  · intro v hv hn
    exact removeAll_named_kept _ s v hv hn
  · intro v hv
    exact removeAll_vol_subset _ s v hv
  · intro c hc
    exact removeAll_container_subset _ s c hc
  · intro c hc hl
    apply removeAll_removes_cid _ s c
    refine ⟨c, ?_, rfl⟩
    apply List.mem_filter.mpr
    exact ⟨hc, by simp [hl]⟩
  · intro c hc hcl
    exact (removeAll_nonmatching_kept _ s c hc (hdisj c hc hcl)).1
  · intro c v hc hcl hatt hv
    exact (removeAll_nonmatching_kept _ s c hc (hdisj c hc hcl)).2 v hatt hv

/-- Witness for phase0Frame_amended on a demo state with a stack container
and an unrelated container. -/
theorem phase0Frame_amended_witness :
    (⟨"dbdata", false⟩ : EngVolume) ∈ (phase0Cleanup "web" demoEngineSt2).hostVolumes ∧
    demoStackContainer ∉ (phase0Cleanup "web" demoEngineSt2).containers ∧
    demoOtherContainer ∈ (phase0Cleanup "web" demoEngineSt2).containers ∧
    (⟨"keepme", true⟩ : EngVolume) ∈ (phase0Cleanup "web" demoEngineSt2).hostVolumes :=
  ⟨(phase0Frame_amended "web" demoEngineSt2 (by decide)).1
      ⟨"dbdata", false⟩ (by decide) rfl,
   (phase0Frame_amended "web" demoEngineSt2 (by decide)).2.2.2.1
      demoStackContainer (by decide) rfl,
   (phase0Frame_amended "web" demoEngineSt2 (by decide)).2.2.2.2.1
      demoOtherContainer (by decide) (by decide),
   (phase0Frame_amended "web" demoEngineSt2 (by decide)).2.2.2.2.2
      demoOtherContainer ⟨"keepme", true⟩ (by decide) (by decide) (by decide)
      (by decide)⟩

/-- Claim C4 (counterexample): for the underscore-free absolute path
/usr/share/nginx/html the stack-restore decode recovers the path, but the
clone-restore decode keeps the `volumes/` directory part and yields
/volumes/usr/share/nginx/html — the decode-encode round trip is NOT the
identity on the clone path. -/
theorem pathRoundTrip_counterexample :
    stackRestoreDecode "volumes/".data (volumeEntryChars "/usr/share/nginx/html".data)
      = "/usr/share/nginx/html".data ∧
    cloneRestoreDecode (volumeEntryChars "/usr/share/nginx/html".data)
      = "/volumes/usr/share/nginx/html".data ∧
    cloneRestoreDecode (volumeEntryChars "/usr/share/nginx/html".data)
      ≠ "/usr/share/nginx/html".data := by
  refine ⟨by decide, by decide, by decide⟩

theorem tar_data : ".tar".data = tarPat := rfl

theorem isPrefixOf_append (pat t : List Char) : pat.isPrefixOf (pat ++ t) = true :=
  List.isPrefixOf_iff_prefix.mpr (List.prefix_append pat t)

theorem replaceFirst_here (pat rep t : List Char) :
    replaceFirst pat rep (pat ++ t) = rep ++ t := by
  cases pat with
  | nil =>
    cases t with
    | nil => simp [replaceFirst, List.isPrefixOf]
    | cons c r => simp [replaceFirst, List.isPrefixOf]
  | cons p ps =>
    have hpre := isPrefixOf_append (p :: ps) t
    rw [show ((p :: ps) ++ t) = p :: (ps ++ t) from rfl] at hpre ⊢
    rw [show replaceFirst (p :: ps) rep (p :: (ps ++ t))
          = (if (p :: ps).isPrefixOf (p :: (ps ++ t)) then
               rep ++ (p :: (ps ++ t)).drop (p :: ps).length
             else p :: replaceFirst (p :: ps) rep (ps ++ t)) from rfl]
    rw [hpre]
    simp only [if_true, List.length_cons, List.drop_succ_cons, List.drop_left]

theorem replaceFirst_skip (pat s : List Char) (h : noEarlyHit pat s = true) :
    replaceFirst pat [] (s ++ pat) = s := by
  induction s with
  | nil =>
    have h2 := replaceFirst_here pat [] []
    simpa using h2
  | cons c s ih =>
    simp only [noEarlyHit, Bool.and_eq_true] at h
    obtain ⟨h1, h2⟩ := h
    have h1' : pat.isPrefixOf ((c :: s) ++ pat) = false := by
      cases hx : pat.isPrefixOf ((c :: s) ++ pat)
      · rfl
      · rw [hx] at h1
        exact absurd h1 (by decide)
    rw [show ((c :: s) ++ pat) = c :: (s ++ pat) from rfl] at h1' ⊢
    rw [show replaceFirst pat [] (c :: (s ++ pat))
          = (if pat.isPrefixOf (c :: (s ++ pat)) then
               [] ++ (c :: (s ++ pat)).drop pat.length
             else c :: replaceFirst pat [] (s ++ pat)) from rfl]
    rw [h1']
    simp only [if_false, Bool.false_eq_true]
    rw [ih h2]

theorem tar_no_boundary (c : Char) (rest : List Char)
    (h : tarPat.isPrefixOf ((c :: rest) ++ tarPat) = true) :
    tarPat.isPrefixOf (c :: rest) = true := by
  match rest with
  | [] =>
    exfalso
    simp only [tarPat, List.cons_append, List.nil_append, List.isPrefixOf,
      Bool.and_eq_true, beq_iff_eq] at h
    exact absurd h.2.1 (by decide)
  | [c2] =>
    exfalso
    simp only [tarPat, List.cons_append, List.nil_append, List.isPrefixOf,
      Bool.and_eq_true, beq_iff_eq] at h
    exact absurd h.2.2.1 (by decide)
  | [c2, c3] =>
    exfalso
    simp only [tarPat, List.cons_append, List.nil_append, List.isPrefixOf,
      Bool.and_eq_true, beq_iff_eq] at h
    exact absurd h.2.2.2.1 (by decide)
  | [c2, c3, c4] =>
    simp only [tarPat, List.cons_append, List.nil_append, List.isPrefixOf,
      Bool.and_eq_true, beq_iff_eq] at h ⊢
    exact ⟨h.1, h.2.1, h.2.2.1, h.2.2.2.1, trivial⟩
  | c2 :: c3 :: c4 :: c5 :: r5 =>
    simp only [tarPat, List.cons_append, List.isPrefixOf, Bool.and_eq_true] at h ⊢
    exact ⟨h.1, h.2.1, h.2.2.1, h.2.2.2.1, trivial⟩

theorem noEarly_of_not_contains (s : List Char)
    (h : containsSub tarPat s = false) : noEarlyHit tarPat s = true := by
  induction s with
  | nil => rfl
  | cons c rest ih =>
    rw [show containsSub tarPat (c :: rest)
          = (tarPat.isPrefixOf (c :: rest) || containsSub tarPat rest) from rfl] at h
    have h1 : tarPat.isPrefixOf (c :: rest) = false := by
      cases hx : tarPat.isPrefixOf (c :: rest)
      · rfl
      · rw [hx, Bool.true_or] at h
        exact absurd h (by decide)
    have h2 : containsSub tarPat rest = false := by
      cases hx : containsSub tarPat rest
      · rfl
      · rw [hx, Bool.or_true] at h
        exact absurd h (by decide)
    simp only [noEarlyHit, Bool.and_eq_true]
    refine ⟨?_, ih h2⟩
    cases hx : tarPat.isPrefixOf ((c :: rest) ++ tarPat)
    · rfl
    · have h3 := tar_no_boundary c rest hx
      rw [h1] at h3
      exact absurd h3 (by decide)

theorem unescape_escape (c : Char) (h1 : c ≠ '_') (h2 : c ≠ '\\') :
    unescapeChar (escapeChar c) = c := by
  by_cases hc : c = '/' ∨ c = '\\'
  · rcases hc with hc | hc
    · rw [hc]
      rfl
    · exact absurd hc h2
  · have he : escapeChar c = c := by simp [escapeChar, hc]
    rw [he]
    simp [unescapeChar, h1]

theorem map_unescape_escape (l : List Char) (h1 : '_' ∉ l) (h2 : '\\' ∉ l) :
    (l.map escapeChar).map unescapeChar = l := by
  induction l with
  | nil => rfl
  | cons c rest ih =>
    simp only [List.map_cons]
    rw [unescape_escape c (fun h => h1 (h ▸ List.mem_cons_self c rest))
         (fun h => h2 (h ▸ List.mem_cons_self c rest)),
       ih (fun h => h1 (List.mem_cons_of_mem c h))
         (fun h => h2 (List.mem_cons_of_mem c h))]

theorem escape_beq (x c : Char) (hx1 : x ≠ '_') (hx2 : x ≠ '/') (hx3 : x ≠ '\\') :
    (x == escapeChar c) = (x == c) := by
  by_cases hc : c = '/' ∨ c = '\\'
  · have he : escapeChar c = '_' := by
      simp only [escapeChar]
      rw [if_pos hc]
    rw [he]
    have hl : (x == '_') = false := beq_eq_false_iff_ne.mpr hx1
    have hr : (x == c) = false := by
      rcases hc with hc | hc
      · rw [hc]
        exact beq_eq_false_iff_ne.mpr hx2
      · rw [hc]
        exact beq_eq_false_iff_ne.mpr hx3
    rw [hl, hr]
  · have he : escapeChar c = c := by
      simp only [escapeChar]
      rw [if_neg hc]
    rw [he]

theorem isPrefixOf_tar_map (l : List Char) :
    tarPat.isPrefixOf (l.map escapeChar) = tarPat.isPrefixOf l := by
  match l with
  | [] => rfl
  | [c1] =>
    simp only [List.map_cons, List.map_nil, tarPat, List.isPrefixOf, Bool.and_false]
  | [c1, c2] =>
    simp only [List.map_cons, List.map_nil, tarPat, List.isPrefixOf, Bool.and_false]
  | [c1, c2, c3] =>
    simp only [List.map_cons, List.map_nil, tarPat, List.isPrefixOf, Bool.and_false]
  | c1 :: c2 :: c3 :: c4 :: r =>
    simp only [List.map_cons, tarPat, List.isPrefixOf]
    rw [escape_beq '.' c1 (by decide) (by decide) (by decide),
        escape_beq 't' c2 (by decide) (by decide) (by decide),
        escape_beq 'a' c3 (by decide) (by decide) (by decide),
        escape_beq 'r' c4 (by decide) (by decide) (by decide)]

theorem containsSub_tar_map (l : List Char) :
    containsSub tarPat (l.map escapeChar) = containsSub tarPat l := by
  induction l with
  | nil => rfl
  | cons c rest ih =>
    rw [show containsSub tarPat ((c :: rest).map escapeChar)
          = (tarPat.isPrefixOf ((c :: rest).map escapeChar)
             || containsSub tarPat (rest.map escapeChar)) from rfl]
    rw [isPrefixOf_tar_map (c :: rest), ih]
    rfl

theorem containsSub_tar_append_left (a s : List Char) (ha : ∀ c ∈ a, c ≠ '.') :
    containsSub tarPat (a ++ s) = containsSub tarPat s := by
  induction a with
  | nil => rfl
  | cons c a ih =>
    have hc : c ≠ '.' := ha c (List.mem_cons_self c a)
    have ha' : ∀ x ∈ a, x ≠ '.' := fun x hx => ha x (List.mem_cons_of_mem c hx)
    rw [show containsSub tarPat ((c :: a) ++ s)
          = (tarPat.isPrefixOf (c :: (a ++ s)) || containsSub tarPat (a ++ s)) from rfl]
    rw [ih ha']
    have hpre : tarPat.isPrefixOf (c :: (a ++ s)) = false := by
      rw [show tarPat.isPrefixOf (c :: (a ++ s))
            = (('.' == c) && List.isPrefixOf ['t', 'a', 'r'] (a ++ s)) from rfl]
      rw [beq_eq_false_iff_ne.mpr (Ne.symm hc)]
      rfl
    rw [hpre, Bool.false_or]

theorem containsSub_tail (pat : List Char) (c : Char) (rest : List Char)
    (h : containsSub pat (c :: rest) = false) : containsSub pat rest = false := by
  rw [show containsSub pat (c :: rest)
        = (pat.isPrefixOf (c :: rest) || containsSub pat rest) from rfl] at h
  cases hx : containsSub pat rest
  · rfl
  · rw [hx, Bool.or_true] at h
    exact absurd h (by decide)

/-- Claim C4 (amended): for an absolute path with no underscore, no
backslash, no ".tar" substring and no leading double slash, the
stack-restore decode of the backup-side entry name recovers the path
exactly; the clone-restore decode of the same entry instead yields the path
prefixed with /volumes, because that code path never strips the `volumes/`
directory from the entry name. -/
theorem pathRoundTrip_amended (p : List Char)
    (habs : p.head? = some '/')
    (hund : '_' ∉ p) (hbs : '\\' ∉ p)
    (htar : containsSub ".tar".data p = false)
    (hdbl : (p.drop 1).head? ≠ some '/') :
    stackRestoreDecode "volumes/".data (volumeEntryChars p) = p ∧
    cloneRestoreDecode (volumeEntryChars p) = "/volumes".data ++ p := by
  obtain ⟨rest, rfl⟩ : ∃ rest, p = '/' :: rest := by
    cases p with
    | nil => simp at habs
    | cons c r =>
      simp only [List.head?_cons, Option.some.injEq] at habs
      exact ⟨r, by rw [habs]⟩
  have hundr : '_' ∉ rest := fun h => hund (List.mem_cons_of_mem _ h)
  have hbsr : '\\' ∉ rest := fun h => hbs (List.mem_cons_of_mem _ h)
  rw [tar_data] at htar
  have htarr : containsSub tarPat rest = false := containsSub_tail tarPat '/' rest htar
  have hdblr : rest.head? ≠ some '/' := by simpa using hdbl
  have henc : volumeEntryChars ('/' :: rest)
      = "volumes/".data ++ (rest.map escapeChar ++ tarPat) := by
    simp only [volumeEntryChars, List.map_cons]
    rw [show escapeChar '/' = '_' from rfl]
    rw [show stripLeadUnd ('_' :: rest.map escapeChar) = rest.map escapeChar from rfl]
    simp only [tarPat]
    rw [List.append_assoc]
  have hmapenc : containsSub tarPat (rest.map escapeChar) = false := by
    rw [containsSub_tar_map]
    exact htarr
  constructor
  · simp only [stackRestoreDecode, henc]
    rw [replaceFirst_here "volumes/".data [] (rest.map escapeChar ++ tarPat)]
    rw [List.nil_append]
    rw [show (['.', 't', 'a', 'r'] : List Char) = tarPat from rfl]
    rw [replaceFirst_skip tarPat (rest.map escapeChar)
        (noEarly_of_not_contains _ hmapenc)]
    rw [map_unescape_escape rest hundr hbsr]
    simp only [ensureSlash]
    rw [if_neg hdblr]
  · simp only [cloneRestoreDecode, henc]
    rw [List.map_append, List.map_append]
    rw [show ("volumes/".data).map unescapeChar = "volumes/".data from rfl]
    rw [show tarPat.map unescapeChar = tarPat from rfl]
    rw [map_unescape_escape rest hundr hbsr]
    rw [← List.append_assoc]
    rw [show (['.', 't', 'a', 'r'] : List Char) = tarPat from rfl]
    have hvol : containsSub tarPat ("volumes/".data ++ rest) = false := by
      rw [containsSub_tar_append_left "volumes/".data rest (by decide)]
      exact htarr
    rw [replaceFirst_skip tarPat ("volumes/".data ++ rest)
        (noEarly_of_not_contains _ hvol)]
    simp only [ensureSlash]
    have hhead : ¬ (("volumes/".data ++ rest).head? = some '/') := by
      rw [show ("volumes/".data ++ rest).head? = some 'v' from rfl]
      decide
    rw [if_neg hhead]
    rfl

/-- Witness for pathRoundTrip_amended at a concrete path. -/
theorem pathRoundTrip_amended_witness :
    stackRestoreDecode "volumes/".data (volumeEntryChars "/data/app".data)
      = "/data/app".data ∧
    cloneRestoreDecode (volumeEntryChars "/data/app".data)
      = "/volumes".data ++ "/data/app".data :=
  pathRoundTrip_amended "/data/app".data (by decide) (by decide) (by decide)
    (by decide) (by decide)

end DockerBackup
